import Mathlib

/-!
Verification of the query-intent cache-and-dispatch core of the
SentientSats crypto intelligence agent.

The Python source (`agent_DEPLOYED_ENHANCED.py`, `utils/cache.py`,
`utils/rate_limiter.py`, `services/news_service.py`,
`knowledge/sentiment_analyzer.py`) is shallowly embedded below:
pure functions become Lean functions, the mutable cache becomes explicit
state passing, network calls become oracle parameters, and Python floats
become rationals (only comparisons and arithmetic on them matter here,
never binary rounding).
-/

namespace SentientSats

/-- Python's `needle in hay` substring test, on character lists. -/
def containsSub (needle : List Char) : List Char → Bool
  | [] => needle.isPrefixOf []
  | c :: t => needle.isPrefixOf (c :: t) || containsSub needle t

/-- Python's `needle in hay` substring test, on strings. -/
def strContains (hay needle : String) : Bool :=
  containsSub needle.data hay.data

/-- Python's `str.lower()` applied characterwise (all inputs of interest
are ASCII, where `Char.toLower` agrees with Python). -/
def lowerString (s : String) : String := String.mk (s.data.map Char.toLower)

/-- The closed intent enumeration returned by `extract_intent`
(the string `"unknown"` in the source is the General catch-all). -/
inductive Intent
  | price | trending | news | sentiment | strategy | movers | compare | help | unknown
  deriving DecidableEq, Repr

/-- Keyword set for price queries (source line 593). -/
def priceKeywords : List String := ["price", "worth", "value", "cost", "how much"]

/-- Keyword set for trending queries (source line 597). -/
def trendingKeywords : List String := ["trending", "popular", "hot", "buzz"]

/-- Keyword set for news queries (source line 601). -/
def newsKeywords : List String := ["news", "headlines", "latest", "updates"]

/-- Keyword set for sentiment queries (source line 605). -/
def sentimentKeywords : List String := ["sentiment", "feeling", "mood", "opinion"]

/-- Keyword set for strategy queries (source line 609). -/
def strategyKeywords : List String :=
  ["strategy", "invest", "portfolio", "recommendation", "stake", "staking"]

/-- Keyword set for market-mover queries (source line 613). -/
def moversKeywords : List String :=
  ["gainer", "loser", "mover", "top", "bottom", "best", "worst"]

/-- Keyword set for comparison queries (source line 617). -/
def compareKeywords : List String := ["compare", "vs", "versus", "difference"]

/-- Keyword set for help queries (source line 621). -/
def helpKeywords : List String := ["help", "what can", "capabilities", "how to", "guide"]

/-- `extract_intent` from `agent_DEPLOYED_ENHANCED.py` lines 588-624:
lowercase the text, then test the keyword sets in the fixed source
order, first match wins, `unknown` as catch-all. -/
def extract_intent (text : String) : Intent :=
  let t := lowerString text
  if priceKeywords.any (fun w => strContains t w) then .price
  else if trendingKeywords.any (fun w => strContains t w) then .trending
  else if newsKeywords.any (fun w => strContains t w) then .news
  else if sentimentKeywords.any (fun w => strContains t w) then .sentiment
  else if strategyKeywords.any (fun w => strContains t w) then .strategy
  else if moversKeywords.any (fun w => strContains t w) then .movers
  else if compareKeywords.any (fun w => strContains t w) then .compare
  else if helpKeywords.any (fun w => strContains t w) then .help
  else .unknown

/-- The ordered rule table of the spec (section 4.4): Price, Trending,
News, Sentiment, Strategy, Movers, Compare, Help. -/
def intentRules : List (Intent × List String) :=
  [(.price, priceKeywords), (.trending, trendingKeywords), (.news, newsKeywords),
   (.sentiment, sentimentKeywords), (.strategy, strategyKeywords),
   (.movers, moversKeywords), (.compare, compareKeywords), (.help, helpKeywords)]

/-- Spec-side classifier (section 4.4 of the spec, stated independently of
the code): evaluate an ordered list of `(intent, keywordSet)` rules; the
first rule whose keyword set has a member occurring as a substring of the
lowercased input wins; `catchAll` when none does. -/
def classifyFirstMatch : List (Intent × List String) → Intent → String → Intent
  | [], catchAll, _ => catchAll
  | r :: rest, catchAll, text =>
    if r.2.any (fun w => strContains (lowerString text) w) then r.1
    else classifyFirstMatch rest catchAll text

/-- C1: intent classification is the deterministic first-match-wins
evaluation of the ordered rule table Price, Trending, News, Sentiment,
Strategy, Movers, Compare, Help over the lowercased input with substring
keyword matching and `unknown` (General) as catch-all, and the six
literal cases of the spec classify as stated. -/
theorem intent_first_match_wins :
    (∀ t, extract_intent t = classifyFirstMatch intentRules .unknown t)
    ∧ extract_intent "What\x27s the price of Bitcoin?" = .price
    ∧ extract_intent "Show trending tokens" = .trending
    ∧ extract_intent "top gainers today" = .movers
    ∧ extract_intent "Compare BTC and ETH" = .compare
    ∧ extract_intent "help" = .help
    ∧ extract_intent "asdkfj random text" = .unknown :=
  ⟨fun _ => rfl, by decide, by decide, by decide, by decide, by decide, by decide⟩

/-- Word character test of the regex `\b` boundary (`[a-zA-Z0-9_]`; all
inputs of interest are ASCII). -/
def isWordChar (c : Char) : Bool := c.isAlphanum || c == '_'

/-- A `\b` boundary holds to the left of a match position when the
position is the start of the text or the preceding character is not a
word character (token aliases consist of word characters only). -/
def leftBoundary : Option Char → Bool
  | none => true
  | some c => !isWordChar c

/-- A `\b` boundary holds to the right of the match when the text ends
there or continues with a non-word character. -/
def rightBoundary : List Char → Bool
  | [] => true
  | c :: _ => !isWordChar c

/-- Python's `re.search(r'\b' + alias + r'\b', text)`: scan every start
position, requiring word boundaries on both sides of the alias. `prev`
is the character just before the current position. -/
def wbMatchAux (needle : List Char) : Option Char → List Char → Bool
  | prev, [] => leftBoundary prev && needle.isPrefixOf [] && rightBoundary []
  | prev, c :: t =>
    (leftBoundary prev && needle.isPrefixOf (c :: t)
      && rightBoundary ((c :: t).drop needle.length))
    || wbMatchAux needle (some c) t

/-- Whole-word (word-boundary) match of `needle` inside `hay`. -/
def wbMatch (needle hay : String) : Bool := wbMatchAux needle.data none hay.data

/-- The static alias → canonical-id table `TOKEN_MAP`
(`agent_DEPLOYED_ENHANCED.py` lines 116-134), in Python dict insertion
order. -/
def TOKEN_MAP : List (String × String) :=
  [("btc", "bitcoin"), ("bitcoin", "bitcoin"),
   ("eth", "ethereum"), ("ethereum", "ethereum"),
   ("sol", "solana"), ("solana", "solana"),
   ("ada", "cardano"), ("cardano", "cardano"),
   ("xrp", "ripple"), ("ripple", "ripple"),
   ("doge", "dogecoin"), ("dogecoin", "dogecoin"),
   ("dot", "polkadot"), ("polkadot", "polkadot"),
   ("matic", "matic-network"), ("polygon", "matic-network"),
   ("avax", "avalanche-2"), ("avalanche", "avalanche-2"),
   ("link", "chainlink"), ("chainlink", "chainlink"),
   ("uni", "uniswap"), ("uniswap", "uniswap"),
   ("atom", "cosmos"), ("cosmos", "cosmos"),
   ("ltc", "litecoin"), ("litecoin", "litecoin"),
   ("bnb", "binancecoin"), ("binance", "binancecoin"),
   ("near", "near"), ("algo", "algorand"), ("algorand", "algorand"),
   ("ftm", "fantom"), ("fantom", "fantom"),
   ("hbar", "hedera-hashgraph"), ("hedera", "hedera-hashgraph")]

/-- The loop body of `extract_crypto_tokens`: iterate the alias table,
appending the canonical id of each whole-word-matching alias unless the
id was already collected. -/
def collectTokens (text : List Char) : List (String × String) → List String → List String
  | [], acc => acc
  | (name, id) :: rest, acc =>
    if wbMatchAux name.data none text && !(acc.contains id)
    then collectTokens text rest (acc ++ [id])
    else collectTokens text rest acc

/-- `extract_crypto_tokens` from `agent_DEPLOYED_ENHANCED.py` lines
575-585: collect canonical ids of whole-word alias matches in the
lowercased text, then keep the first 3. -/
def extract_crypto_tokens (text : String) : List String :=
  (collectTokens (lowerString text).data TOKEN_MAP []).take 3

/-- Spec-side first-occurrence deduplication: keep an element only on its
first appearance (and never when it is already in `seen`). -/
def dedupFirst (seen : List String) : List String → List String
  | [] => []
  | x :: xs => if seen.contains x then dedupFirst seen xs else x :: dedupFirst (x :: seen) xs

/-- `dedupFirst` only consults the membership of `seen`, not its order. -/
theorem dedupFirst_congr (a b : List String) (h : ∀ x, a.contains x = b.contains x) :
    ∀ l, dedupFirst a l = dedupFirst b l := by
  intro l
  induction l generalizing a b with
  | nil => rfl
  | cons x xs ih =>
    simp only [dedupFirst, h x]
    cases hb : b.contains x with
    | true =>
      rw [if_pos rfl, if_pos rfl]
      exact ih a b h
    | false =>
      rw [if_neg Bool.false_ne_true, if_neg Bool.false_ne_true]
      exact congrArg (x :: ·) (ih (x :: a) (x :: b) (fun y => by
        rw [List.contains_cons, List.contains_cons, h y]))

/-- The alias-table accumulator loop equals: filter the table by
whole-word match, project the canonical ids, and deduplicate keeping
first occurrences. -/
theorem collectTokens_eq_dedupFirst (text : List Char) :
    ∀ (entries : List (String × String)) (acc : List String),
    collectTokens text entries acc
      = acc ++ dedupFirst acc
          ((entries.filter (fun p => wbMatchAux p.1.data none text)).map Prod.snd) := by
  intro entries
  induction entries with
  | nil => intro acc; simp [collectTokens, dedupFirst]
  | cons p rest ih =>
    intro acc
    obtain ⟨name, id⟩ := p
    simp only [collectTokens, List.filter_cons]
    cases hm : wbMatchAux name.data none text with
    | false =>
      simp only [hm, Bool.false_and, Bool.false_eq_true, if_false]
      exact ih acc
    | true =>
      cases hc : acc.contains id with
      | true =>
        simp only [hm, hc, Bool.true_and, Bool.not_true, Bool.false_eq_true, if_false,
          if_true, List.map_cons]
        rw [ih acc]
        have hmem : id ∈ acc := by simpa using hc
        simp [dedupFirst, hmem]
      | false =>
        simp only [hm, hc, Bool.true_and, Bool.not_false, if_true, List.map_cons]
        rw [ih (acc ++ [id])]
        simp only [dedupFirst, hc, Bool.false_eq_true, if_false]
        rw [dedupFirst_congr (acc ++ [id]) (id :: acc) (fun y => by simp [Or.comm])]
        simp

/-- `dedupFirst` yields a duplicate-free list avoiding `seen`. -/
theorem dedupFirst_nodup : ∀ (l seen : List String),
    (dedupFirst seen l).Nodup ∧ ∀ x ∈ dedupFirst seen l, seen.contains x = false := by
  intro l
  induction l with
  | nil => intro seen; simp [dedupFirst]
  | cons x xs ih =>
    intro seen
    cases hs : seen.contains x with
    | true =>
      simp only [dedupFirst, hs, if_pos rfl]
      exact ih seen
    | false =>
      simp only [dedupFirst, hs, Bool.false_eq_true, if_false]
      obtain ⟨hnd, hmem⟩ := ih (x :: seen)
      constructor
      · refine List.nodup_cons.mpr ⟨?_, hnd⟩
        intro hx
        have h2 := hmem x hx
        rw [List.contains_cons] at h2
        simp at h2
      · intro y hy
        rcases List.mem_cons.mp hy with rfl | hy2
        · exact hs
        · have h2 := hmem y hy2
          rw [List.contains_cons] at h2
          exact (Bool.or_eq_false_iff.mp h2).2

/-- C3: `extract_crypto_tokens` equals filtering the static alias table
by whole-word match on the lowercased text, projecting canonical ids in
table iteration order, deduplicating keeping first occurrences and
truncating to 3; the result never has duplicates and never exceeds 3
ids; and the spec's literal cases hold, including that both `"btc"` and
`"bitcoin"` map to canonical id `"bitcoin"` and an alias-free text
yields `[]`. -/
theorem token_extraction_spec :
    (∀ text,
      extract_crypto_tokens text
        = (dedupFirst []
            ((TOKEN_MAP.filter (fun p => wbMatch p.1 (lowerString text))).map Prod.snd)).take 3
      ∧ (extract_crypto_tokens text).Nodup
      ∧ (extract_crypto_tokens text).length ≤ 3)
    ∧ extract_crypto_tokens "Compare Bitcoin and Ethereum" = ["bitcoin", "ethereum"]
    ∧ extract_crypto_tokens "btc" = ["bitcoin"]
    ∧ extract_crypto_tokens "bitcoin" = ["bitcoin"]
    ∧ extract_crypto_tokens "what a day" = [] := by
  refine ⟨fun text => ?_, by decide, by decide, by decide, by decide⟩
  have hrefine : extract_crypto_tokens text
      = (dedupFirst []
          ((TOKEN_MAP.filter (fun p => wbMatch p.1 (lowerString text))).map Prod.snd)).take 3 := by
    unfold extract_crypto_tokens wbMatch
    rw [collectTokens_eq_dedupFirst]
    simp
  refine ⟨hrefine, ?_, ?_⟩
  · rw [hrefine]
    exact List.Nodup.sublist (List.take_sublist _ _) (dedupFirst_nodup _ _).1
  · rw [hrefine]
    exact List.length_take_le 3 _

/-- Python floats are modelled as rationals throughout; only ordering and
field arithmetic on them are ever used. The global cache duration
`CACHE_DURATION = 180` seconds (`agent_DEPLOYED_ENHANCED.py` line 106). -/
def CACHE_DURATION : ℚ := 180

/-- The agent's global `cache` dict, as a map from keys to
`(data, timestamp)` pairs; simulated time is explicit. -/
def AgentStore (α : Type) := String → Option (α × ℚ)

/-- `set_cache` (`agent_DEPLOYED_ENHANCED.py` lines 152-154): store the
value with the current timestamp, overwriting unconditionally. -/
def set_cache {α} (st : AgentStore α) (key : String) (data : α) (now : ℚ) : AgentStore α :=
  fun k => if k = key then some (data, now) else st k

/-- `get_cache` (`agent_DEPLOYED_ENHANCED.py` lines 141-149): return the
data while `now - timestamp < CACHE_DURATION`; otherwise delete the
entry (lazy eviction) and return `none`, as for a never-stored key. -/
def get_cache {α} (st : AgentStore α) (key : String) (now : ℚ) : Option α × AgentStore α :=
  match st key with
  | some (data, ts) =>
    if now - ts < CACHE_DURATION then (some data, st)
    else (none, fun k => if k = key then none else st k)
  | none => (none, st)

/-- `CacheManager`'s memory cache state (`utils/cache.py`): one bucket per
distinct TTL (`_memory_caches`), each a map from keys to a value with its
store time. The bucket internals model the `cachetools.TTLCache`
dependency: an entry is live while `now - storedAt < ttl` and is dropped
lazily on access once expired. -/
def CMStore (α : Type) := ℚ → String → Option (α × ℚ)

namespace CacheManager

/-- `CacheManager.set` (`utils/cache.py` lines 144-168, memory path):
write the value into the bucket for `ttl`, stamping the current time. -/
def set {α} (st : CMStore α) (key : String) (value : α) (ttl now : ℚ) : CMStore α :=
  fun t k => if t = ttl ∧ k = key then some (value, now) else st t k

/-- `CacheManager.get` (`utils/cache.py` lines 112-142, memory path):
look the key up in the bucket for `ttl`; a live entry is returned, an
expired one is removed as a side effect and `none` is returned. -/
def get {α} (st : CMStore α) (key : String) (ttl now : ℚ) : Option α × CMStore α :=
  match st ttl key with
  | some (value, ts) =>
    if now - ts < ttl then (some value, st)
    else (none, fun t k => if t = ttl ∧ k = key then none else st t k)
  | none => (none, st)

end CacheManager

/-- C2: after `set(k,v)` an immediate `get(k)` returns `v`; once simulated
time since the set reaches the TTL, `get(k)` returns `none` and removes
the entry from the store as a side effect of the read (the same answer as
for a never-stored key); a subsequent fresh `set` makes the key readable
again. Proved both for the agent's global cache (fixed TTL
`CACHE_DURATION`) and for `CacheManager` with an arbitrary per-set TTL
(read with the same TTL, as the `cached` decorator does). -/
theorem cache_ttl_spec {α : Type} (st : AgentStore α) (cst : CMStore α)
    (k k2 : String) (v v2 w w2 : α) (s s2 now t now2 tf sf : ℚ)
    (hexp : s + CACHE_DURATION ≤ now)
    (hnever : st k2 = none)
    (ht : 0 < t) (htf : 0 < tf)
    (hcexp : now + t ≤ now2) :
    (get_cache (set_cache st k v s) k s).1 = some v
    ∧ (get_cache (set_cache st k v s) k now).1 = none
    ∧ ((get_cache (set_cache st k v s) k now).2) k = none
    ∧ (get_cache st k2 s).1 = none
    ∧ (get_cache (set_cache ((get_cache (set_cache st k v s) k now).2) k v2 s2) k s2).1 = some v2
    ∧ (CacheManager.get (CacheManager.set cst k w t now) k t now).1 = some w
    ∧ (CacheManager.get (CacheManager.set cst k w t now) k t now2).1 = none
    ∧ ((CacheManager.get (CacheManager.set cst k w t now) k t now2).2) t k = none
    ∧ (CacheManager.get (CacheManager.set
        ((CacheManager.get (CacheManager.set cst k w t now) k t now2).2) k w2 tf sf)
        k tf sf).1 = some w2 := by
  have hset : (set_cache st k v s) k = some (v, s) := by simp [set_cache]
  have hfresh : s - s < CACHE_DURATION := by rw [sub_self]; norm_num [CACHE_DURATION]
  have hfresh2 : s2 - s2 < CACHE_DURATION := by rw [sub_self]; norm_num [CACHE_DURATION]
  have hstale : ¬ (now - s < CACHE_DURATION) := not_lt.mpr (by linarith)
  have hcset : (CacheManager.set cst k w t now) t k = some (w, now) := by
    simp [CacheManager.set]
  have hcfresh : now - now < t := by rw [sub_self]; exact ht
  have hffresh : sf - sf < tf := by rw [sub_self]; exact htf
  have hcstale : ¬ (now2 - now < t) := not_lt.mpr (by linarith)
  refine ⟨?_, ?_, ?_, ?_, ?_, ?_, ?_, ?_, ?_⟩
  · simp only [get_cache, hset]
    rw [if_pos hfresh]
  · simp only [get_cache, hset]
    rw [if_neg hstale]
  · simp only [get_cache, hset]
    rw [if_neg hstale]
    simp
  · simp only [get_cache, hnever]
  · generalize ((get_cache (set_cache st k v s) k now)).2 = st2
    have hl : (set_cache st2 k v2 s2) k = some (v2, s2) := by simp [set_cache]
    simp only [get_cache, hl]
    rw [if_pos hfresh2]
  · simp only [CacheManager.get, hcset]
    rw [if_pos hcfresh]
  · simp only [CacheManager.get, hcset]
    rw [if_neg hcstale]
  · simp only [CacheManager.get, hcset]
    rw [if_neg hcstale]
    simp
  · generalize ((CacheManager.get (CacheManager.set cst k w t now) k t now2)).2 = cst2
    have hl : (CacheManager.set cst2 k w2 tf sf) tf k = some (w2, sf) := by
      simp [CacheManager.set]
    simp only [CacheManager.get, hl]
    rw [if_pos hffresh]

/-- Concrete instantiation of the cache theorem: a value stored at time 0
is gone at time 180, and all side hypotheses hold at the chosen inputs. -/
theorem cache_ttl_spec_witness :
    ((0:ℚ) + CACHE_DURATION ≤ 180) ∧ ((0:ℚ) < 120) ∧ ((0:ℚ) < 60)
    ∧ ((180:ℚ) + 120 ≤ 300)
    ∧ (get_cache (set_cache (fun _ => none : AgentStore Nat) "price_bitcoin" 1 0)
        "price_bitcoin" 180).1 = none :=
  ⟨by norm_num [CACHE_DURATION], by norm_num, by norm_num, by norm_num,
   (cache_ttl_spec (fun _ => none) (fun _ _ => none) "price_bitcoin" "never" 1 2 3 4
      0 300 180 120 300 60 400
      (by norm_num [CACHE_DURATION]) rfl (by norm_num) (by norm_num) (by norm_num)).2.1⟩

/-- The retry loop of `retry_with_backoff` (`utils/rate_limiter.py`
lines 228-293): `f attempt` is the outcome of the wrapped call on its
`attempt`-th invocation (0-based). On an error with retries left, record
a backoff delay of `min(base * expB ^ attempt, maxD)` and recurse; once
retries are exhausted the last error is re-raised. Returns the final
outcome together with the list of backoff delays slept. -/
def retryGo {E A : Type} (f : Nat → Except E A) (base maxD expB : ℚ)
    (maxRetries attempt : Nat) : Except E A × List ℚ :=
  match f attempt with
  | .ok a => (.ok a, [])
  | .error e =>
    if _h : attempt < maxRetries then
      let r := retryGo f base maxD expB maxRetries (attempt + 1)
      (r.1, min (base * expB ^ attempt) maxD :: r.2)
    else (.error e, [])
termination_by maxRetries - attempt
decreasing_by omega

/-- `retry_with_backoff(max_retries, base_delay, max_delay,
exponential_base)` applied to a call: run the loop from attempt 0. -/
def retry_with_backoff {E A : Type} (f : Nat → Except E A) (maxRetries : Nat)
    (base maxD expB : ℚ) : Except E A × List ℚ :=
  retryGo f base maxD expB maxRetries 0

/-- Unrolling the retry loop through `j` consecutive failures followed by
a success, provided retries never run out. -/
theorem retryGo_ok {E A : Type} (f : Nat → Except E A) (g : Nat → E) (v : A)
    (base maxD expB : ℚ) (maxRetries : Nat) :
    ∀ (j attempt : Nat),
    (∀ i, i < j → f (attempt + i) = .error (g (attempt + i))) →
    f (attempt + j) = .ok v → attempt + j ≤ maxRetries →
    retryGo f base maxD expB maxRetries attempt
      = (.ok v, (List.range j).map (fun i => min (base * expB ^ (attempt + i)) maxD)) := by
  intro j
  induction j with
  | zero =>
    intro attempt _ hok _
    rw [retryGo]
    rw [Nat.add_zero] at hok
    rw [hok]
    simp
  | succ j ih =>
    intro attempt hfail hok hle
    have h0 : f attempt = .error (g attempt) := by
      have := hfail 0 (Nat.succ_pos j)
      simpa using this
    rw [retryGo, h0]
    have hlt : attempt < maxRetries := by omega
    dsimp only
    rw [dif_pos hlt]
    have ihx := ih (attempt + 1)
      (fun i hi => by
        rw [show attempt + 1 + i = attempt + (i + 1) from by omega]
        exact hfail (i + 1) (by omega))
      (by rw [show attempt + 1 + j = attempt + (j + 1) from by omega]; exact hok)
      (by omega)
    rw [ihx, List.range_succ_eq_map]
    simp only [List.map_cons, List.map_map, Nat.add_zero]
    congr 1
    congr 1
    refine List.map_congr_left ?_
    intro i hi
    simp only [Function.comp_apply]
    rw [show attempt + 1 + i = attempt + (i + 1) from by omega]

/-- Unrolling the retry loop when every remaining attempt fails: the last
error surfaces and one delay is recorded per retry actually taken. -/
theorem retryGo_err {E A : Type} (f : Nat → Except E A) (g : Nat → E)
    (base maxD expB : ℚ) (maxRetries : Nat) :
    ∀ (j attempt : Nat), attempt + j = maxRetries →
    (∀ i, i ≤ j → f (attempt + i) = .error (g (attempt + i))) →
    retryGo f base maxD expB maxRetries attempt
      = (.error (g maxRetries),
         (List.range j).map (fun i => min (base * expB ^ (attempt + i)) maxD)) := by
  intro j
  induction j with
  | zero =>
    intro attempt heq hfail
    have heq2 : attempt = maxRetries := by omega
    subst heq2
    have h0 : f attempt = .error (g attempt) := by simpa using hfail 0 (le_refl 0)
    rw [retryGo, h0]
    dsimp only
    rw [dif_neg (by omega)]
    simp
  | succ j ih =>
    intro attempt heq hfail
    have h0 : f attempt = .error (g attempt) := by simpa using hfail 0 (by omega)
    rw [retryGo, h0]
    dsimp only
    rw [dif_pos (by omega)]
    have ihx := ih (attempt + 1) (by omega)
      (fun i hi => by
        rw [show attempt + 1 + i = attempt + (i + 1) from by omega]
        exact hfail (i + 1) (by omega))
    rw [ihx, List.range_succ_eq_map]
    simp only [List.map_cons, List.map_map, Nat.add_zero]
    congr 1
    congr 1
    refine List.map_congr_left ?_
    intro i hi
    simp only [Function.comp_apply]
    rw [show attempt + 1 + i = attempt + (i + 1) from by omega]

/-- C4: with exponential base 2, the k-th backoff delay is
`min(base * 2 ^ k, maxDelay)`; a call failing exactly `maxRetries` times
and then succeeding returns the success value after exactly `maxRetries`
backoff delays; a call failing `maxRetries + 1` times surfaces the last
error to the caller. -/
theorem retry_backoff_spec {E A : Type} (g : Nat → E) (v : A) (m : Nat) (base maxD : ℚ)
    (f1 f2 : Nat → Except E A)
    (h1 : ∀ k, k < m → f1 k = .error (g k)) (h2 : f1 m = .ok v)
    (h3 : ∀ k, k ≤ m → f2 k = .error (g k)) :
    retry_with_backoff f1 m base maxD 2
      = (.ok v, (List.range m).map (fun k => min (base * 2 ^ k) maxD))
    ∧ (retry_with_backoff f1 m base maxD 2).2.length = m
    ∧ retry_with_backoff f2 m base maxD 2
      = (.error (g m), (List.range m).map (fun k => min (base * 2 ^ k) maxD)) := by
  have hok := retryGo_ok f1 g v base maxD 2 m m 0
    (fun i hi => by simpa using h1 i hi) (by simpa using h2) (by omega)
  have herr := retryGo_err f2 g base maxD 2 m m 0 (by omega)
    (fun i hi => by simpa using h3 i hi)
  have hsz : (retry_with_backoff f1 m base maxD 2).2.length = m := by
    rw [retry_with_backoff, hok]
    simp
  refine ⟨?_, hsz, ?_⟩
  · rw [retry_with_backoff, hok]
    simp
  · rw [retry_with_backoff, herr]
    simp

/-- Concrete instantiation of the retry theorem: two failures then a
success with `maxRetries = 2`, `base = 1`, `maxDelay = 60`. -/
theorem retry_backoff_spec_witness :
    (∀ k, k < 2 → (fun k => if k < 2 then Except.error k else Except.ok 7) k
        = Except.error (id k : Nat))
    ∧ (fun k => if k < 2 then Except.error k else Except.ok (7:Nat)) 2 = Except.ok 7
    ∧ (∀ k, k ≤ 2 → (fun k => (Except.error k : Except Nat Nat)) k = Except.error (id k))
    ∧ retry_with_backoff (fun k => if k < 2 then Except.error k else Except.ok (7:Nat)) 2 1 60 2
        = (Except.ok 7, (List.range 2).map (fun k => min ((1:ℚ) * 2 ^ k) 60)) :=
  ⟨fun k hk => by simp [hk], by norm_num, fun _ _ => rfl,
   (retry_backoff_spec (id : Nat → Nat) 7 2 1 60
      (fun k => if k < 2 then Except.error k else Except.ok 7)
      (fun k => Except.error k)
      (fun k hk => by simp [hk]) (by norm_num) (fun _ _ => rfl)).1⟩

/-- Python's `str.upper()` applied characterwise (ASCII inputs). -/
def upperString (s : String) : String := String.mk (s.data.map Char.toUpper)

/-- One coin of the `/coins/markets` response used by `fetch_top_movers`
(`agent_DEPLOYED_ENHANCED.py` lines 276-330); the 24h change may be
absent in the JSON, in which case the code reads it as 0 via
`x.get("price_change_percentage_24h", 0)`. -/
structure MarketCoin where
  symbol : String
  name : String
  current_price : ℚ
  price_change_percentage_24h : Option ℚ

/-- The sort key `x.get("price_change_percentage_24h", 0)`. -/
def changeKey (c : MarketCoin) : ℚ := c.price_change_percentage_24h.getD 0

/-- The comparator of `sorted(data, key=..., reverse=True)`: `a` comes no
later than `b` when `a`'s 24h change is at least `b`'s. -/
def movR (a b : MarketCoin) : Prop := changeKey b ≤ changeKey a

instance : DecidableRel movR := fun a b => inferInstanceAs (Decidable (changeKey b ≤ changeKey a))

instance : IsTotal MarketCoin movR := ⟨fun a b => le_total (changeKey b) (changeKey a)⟩

instance : IsTrans MarketCoin movR := ⟨fun _ _ _ h1 h2 => le_trans h2 h1⟩

/-- The per-coin record built for the gainers/losers lists. -/
structure MoverEntry where
  symbol : String
  name : String
  price : ℚ
  change : ℚ

/-- The dict comprehension of `fetch_top_movers`: symbol uppercased,
name, current price, 24h change (0 when absent). -/
def toMover (c : MarketCoin) : MoverEntry :=
  ⟨upperString c.symbol, c.name, c.current_price, changeKey c⟩

/-- `fetch_top_movers` (`agent_DEPLOYED_ENHANCED.py` lines 276-330) on an
already-fetched universe: stable-sort by 24h change descending (Python's
`sorted` is a stable sort; for a total preorder comparator the stable
sort is unique, so `insertionSort` computes the same list), gainers are
`sorted_data[:5]`, losers are `sorted_data[-5:][::-1]`. -/
def fetch_top_movers (data : List MarketCoin) : List MoverEntry × List MoverEntry :=
  let sorted := List.insertionSort movR data
  ((sorted.take 5).map toMover,
   ((sorted.drop (sorted.length - 5)).reverse).map toMover)

/-- C5: for every fetched universe, the gainers list is ordered by 24h
change descending (head of the change-descending sort) and the losers
list by 24h change ascending, i.e. worst first (tail of the sort
reversed); each list has at most 5 entries. -/
theorem movers_order_spec (data : List MarketCoin) :
    ((fetch_top_movers data).1).Pairwise (fun a b => b.change ≤ a.change)
    ∧ ((fetch_top_movers data).2).Pairwise (fun a b => a.change ≤ b.change)
    ∧ ((fetch_top_movers data).1).length ≤ 5
    ∧ ((fetch_top_movers data).2).length ≤ 5 := by
  have hsort : (List.insertionSort movR data).Sorted movR :=
    List.sorted_insertionSort movR data
  refine ⟨?_, ?_, ?_, ?_⟩
  · refine List.Pairwise.map toMover (fun _ _ h => h) ?_
    exact List.Pairwise.sublist (List.take_sublist _ _) hsort
  · refine List.Pairwise.map toMover (fun _ _ h => h) ?_
    rw [List.pairwise_reverse]
    exact List.Pairwise.sublist (List.drop_sublist _ _) hsort
  · simp [fetch_top_movers]
  · simp [fetch_top_movers]
    omega

/-- Digit list of a natural number (fuel-based so that it reduces in the
kernel; `fuel > number of digits` always holds at call sites). -/
def natChars : Nat → Nat → List Char
  | 0, _ => []
  | fuel + 1, n =>
    if n < 10 then [Char.ofNat (48 + n)]
    else natChars fuel (n / 10) ++ [Char.ofNat (48 + n % 10)]

/-- Decimal rendering of a natural number. -/
def natStr (n : Nat) : String := String.mk (natChars (n + 1) n)

/-- Decimal rendering of an integer. -/
def intStr : ℤ → String
  | .ofNat n => natStr n
  | .negSucc n => "-" ++ natStr (n + 1)

/-- Python's fixed-point float format `f"{q:.df}"` on the rational model:
round to `d` decimal places (floats' binary rounding artifacts are
immaterial to every claim; only the shape sign/integer/point/d-digits
matters). -/
def fmtFixed (d : Nat) (q : ℚ) : String :=
  let neg := q < 0
  let scaled : ℤ := round (|q| * (10 ^ d : ℚ))
  let ip := scaled / (10 ^ d : ℤ)
  let fp := (scaled % (10 ^ d : ℤ)).toNat
  let fpStr := natStr fp
  let pad := String.mk (List.replicate (d - fpStr.length) '0')
  (if neg then "-" else "") ++ intStr ip ++ (if d = 0 then "" else "." ++ pad ++ fpStr)

/-- Thousands grouping on a reversed digit list: a comma after every
three digits from the right. -/
def commaRev : List Char → List Char
  | c1 :: c2 :: c3 :: c4 :: rest => c1 :: c2 :: c3 :: ',' :: commaRev (c4 :: rest)
  | l => l

/-- Python's `f"{q:,.df}"`: fixed-point with thousands separators in the
integer part. -/
def withCommas (d : Nat) (q : ℚ) : String :=
  let neg := q < 0
  let scaled : ℤ := round (|q| * (10 ^ d : ℚ))
  let ip := scaled / (10 ^ d : ℤ)
  let fp := (scaled % (10 ^ d : ℤ)).toNat
  let ipStr := intStr ip
  let grouped := String.mk ((commaRev ipStr.data.reverse).reverse)
  let fpStr := natStr fp
  let pad := String.mk (List.replicate (d - fpStr.length) '0')
  (if neg then "-" else "") ++ grouped ++ (if d = 0 then "" else "." ++ pad ++ fpStr)

/-- `format_number` (`agent_DEPLOYED_ENHANCED.py` lines 157-166): scale
with B/M suffixes, comma-group above 1000, two decimals. -/
def format_number (num : ℚ) (decimals : Nat) : String :=
  if num ≥ 1000000000 then "$" ++ fmtFixed 2 (num / 1000000000) ++ "B"
  else if num ≥ 1000000 then "$" ++ fmtFixed 2 (num / 1000000) ++ "M"
  else if num ≥ 1000 then "$" ++ withCommas decimals num
  else "$" ++ fmtFixed decimals num

/-- `format_percentage` (`agent_DEPLOYED_ENHANCED.py` lines 169-173):
sign prefix, two decimals, directional arrow. -/
def format_percentage (num : ℚ) : String :=
  (if num ≥ 0 then "+" else "") ++ fmtFixed 2 num ++ "% " ++ (if num ≥ 0 then "↑" else "↓")

/-- The result dict of `fetch_crypto_price` (lines 217-228). -/
structure PriceData where
  id : String
  symbol : String
  name : String
  price : ℚ
  price_change_24h : ℚ
  high_24h : ℚ
  low_24h : ℚ
  market_cap : ℚ
  volume_24h : ℚ
  circulating_supply : ℚ

/-- The per-token block of `generate_price_response` (lines 654-660). -/
def priceBlock (d : PriceData) : String :=
  d.name ++ " (" ++ d.symbol ++ ")\n"
  ++ "Price: " ++ format_number d.price 2 ++ "\n"
  ++ "24h Change: " ++ format_percentage d.price_change_24h ++ "\n"
  ++ "24h High: " ++ format_number d.high_24h 2 ++ "\n"
  ++ "24h Low: " ++ format_number d.low_24h 2 ++ "\n"
  ++ "Market Cap: " ++ format_number d.market_cap 2 ++ "\n"
  ++ "Volume: " ++ format_number d.volume_24h 2 ++ "\n\n"

/-- `generate_price_response` (lines 643-666): the prompt when no token
was given; otherwise one block (or a could-not-fetch line) per token.
`fetchPrice` is the `fetch_crypto_price` oracle (its returned data, or
`none` on failure); the second component counts its invocations — one
per requested token. -/
def generate_price_response (fetchPrice : String → Option PriceData)
    (tokens : List String) : String × Nat :=
  if tokens = [] then
    ("Please specify a cryptocurrency (e.g., \x27Bitcoin price\x27 or \x27BTC ETH SOL prices\x27)", 0)
  else
    (tokens.foldl (fun acc tid =>
        acc ++ match fetchPrice tid with
          | some d => priceBlock d
          | none => "Could not fetch data for " ++ tid ++ "\n\n")
      "CRYPTOCURRENCY PRICES\n\n"
     ++ "Data from CoinGecko | Cached for 3 minutes",
     tokens.length)

/-- `extract_risk_level` (lines 627-636). -/
def extract_risk_level (text : String) : String :=
  let t := lowerString text
  if (["low risk", "conservative", "safe", "stable"].any fun w => strContains t w) then "low"
  else if (["high risk", "aggressive", "risky", "volatile"].any fun w => strContains t w) then "high"
  else "medium"

/-- `enhance_with_asi1` (lines 476-568). The single HTTP interaction is
the oracle `outcome`: `.error ()` models a raised exception or timeout,
`.ok (status, enhanced)` a response with its HTTP status and the string
extracted from `choices[0].message.content` (empty when absent). Only a
200 response whose content is nonempty and longer than 50 characters
replaces the synthesized text; every other outcome returns it
unchanged. -/
def enhance_with_asi1 (enabled : Bool) (outcome : Except Unit (Nat × String))
    (response_text : String) : String :=
  if !enabled then response_text
  else
    match outcome with
    | .error _ => response_text
    | .ok (status, enhanced) =>
      if status = 200 then
        if enhanced ≠ "" ∧ enhanced.length > 50 then enhanced else response_text
      else response_text

/-- The two feature flags `ENABLE_ASI1_ENHANCEMENT` /
`ENABLE_METTA_KNOWLEDGE` (false when the API keys are absent). -/
structure Config where
  asi1Enabled : Bool
  mettaEnabled : Bool

/-- Oracle data for `process_query`: the price-fetch results, the
rendered texts of the leaf generators that are irrelevant to the routing
claims (`generate_trending_response`, `generate_news_response`,
`generate_strategy_response`, `generate_movers_response`,
`generate_help_response`), and the ASI1 interaction outcome. Of these
generators, trending/news/movers invoke exactly one data fetcher and
strategy/help none. -/
structure GenEnv where
  priceOf : String → Option PriceData
  trendingResp : String
  newsResp : String
  strategyResp : String → String
  moversResp : String
  helpResp : String
  asi1Outcome : Except Unit (Nat × String)

/-- The clarification prompt of the compare branch (line 910). -/
def compareClarification : String :=
  "Please specify two cryptocurrencies to compare (e.g., \x27Compare Bitcoin and Ethereum\x27)"

/-- The static fallback prompt of the catch-all branch (lines 921-930). -/
def unknownFallback : String :=
  "I\x27m not sure what you\x27re asking. Here\x27s what I can help with:\n\nPrice checks: \"Bitcoin price\"\nTrending tokens: \"Show trending\"\nNews: \"Latest crypto news\"\nMarket movers: \"Top gainers\"\nStrategies: \"Low-risk strategy\"\nHelp: \"What can you do?\"\n\nTry asking me something!"

/-- `process_query` (lines 875-940): classify the intent and dispatch.
Returns the response text, the number of data-fetcher invocations
(`fetch_crypto_price` / `fetch_trending_tokens` / `fetch_top_movers` /
`fetch_crypto_news`) and the number of enhancer-layer network calls
(Metta knowledge query plus ASI1 enhancement, each attempted exactly
once when its flag is on). -/
def process_query (cfg : Config) (env : GenEnv) (message : String) : String × Nat × Nat :=
  let aux0 : Nat := if cfg.mettaEnabled then 1 else 0
  let core : String × Nat :=
    match extract_intent message with
    | .price => generate_price_response env.priceOf (extract_crypto_tokens message)
    | .trending => (env.trendingResp, 1)
    | .news => (env.newsResp, 1)
    | .sentiment => (env.newsResp, 1)
    | .strategy => (env.strategyResp (extract_risk_level message), 0)
    | .movers => (env.moversResp, 1)
    | .compare =>
      let tokens := extract_crypto_tokens message
      if tokens.length ≥ 2 then generate_price_response env.priceOf (tokens.take 2)
      else (compareClarification, 0)
    | .help => (env.helpResp, 0)
    | .unknown =>
      let tokens := extract_crypto_tokens message
      if tokens.isEmpty then (unknownFallback, 0)
      else generate_price_response env.priceOf tokens
  (if cfg.asi1Enabled then enhance_with_asi1 true env.asi1Outcome core.1 else core.1,
   core.2, aux0 + (if cfg.asi1Enabled then 1 else 0))

/-- C8: a message with Compare intent from which fewer than 2 tokens were
extracted yields the clarification prompt with zero data-fetcher
invocations and (with the optional enhancers disabled, their default)
zero network calls of any kind. -/
theorem compare_clarification_no_fetch (env : GenEnv) (message : String)
    (hintent : extract_intent message = .compare)
    (htok : (extract_crypto_tokens message).length < 2) :
    process_query ⟨false, false⟩ env message = (compareClarification, 0, 0) := by
  have hc : ¬ ((extract_crypto_tokens message).length ≥ 2) := by omega
  unfold process_query
  rw [hintent]
  simp [hc]

/-- Concrete instantiation of the compare-clarification theorem on the
message `"compare bitcoin"` (one recognized token). -/
theorem compare_clarification_no_fetch_witness :
    extract_intent "compare bitcoin" = .compare
    ∧ (extract_crypto_tokens "compare bitcoin").length < 2
    ∧ process_query ⟨false, false⟩
        ⟨fun _ => none, "", "", fun _ => "", "", "", Except.error ()⟩ "compare bitcoin"
        = (compareClarification, 0, 0) :=
  ⟨by decide, by decide,
   compare_clarification_no_fetch
     ⟨fun _ => none, "", "", fun _ => "", "", "", Except.error ()⟩
     "compare bitcoin" (by decide) (by decide)⟩

/-- C9: every erroring outcome of the optional enhancer — a raised
exception or timeout, a non-200 status, or 200 with empty or too-short
(≤ 50 characters) content — returns the original synthesized text
unchanged; with enhancement disabled the text always passes through. -/
theorem enhancer_fallback_spec (enabled : Bool) (status : Nat) (content text : String)
    (hbad : status ≠ 200 ∨ content.length ≤ 50) :
    enhance_with_asi1 enabled (.error ()) text = text
    ∧ enhance_with_asi1 enabled (.ok (status, content)) text = text
    ∧ (∀ outcome, enhance_with_asi1 false outcome text = text) := by
  refine ⟨?_, ?_, fun _ => rfl⟩
  · cases enabled <;> rfl
  · cases enabled with
    | false => rfl
    | true =>
      by_cases hs : status = 200
      · subst hs
        have hlen : content.length ≤ 50 := by
          rcases hbad with h | h
          · exact absurd rfl h
          · exact h
        have hcond : ¬ (content ≠ "" ∧ content.length > 50) := fun h => absurd h.2 (by omega)
        simp [enhance_with_asi1, hcond]
      · simp [enhance_with_asi1, hs]

/-- Concrete instantiation of the enhancer fallback: a 500 response with
empty content leaves the response text unchanged. -/
theorem enhancer_fallback_spec_witness :
    ((500 ≠ 200) ∨ ("" : String).length ≤ 50)
    ∧ enhance_with_asi1 true (.ok (500, "")) "RESPONSE" = "RESPONSE" :=
  ⟨Or.inl (by decide),
   (enhancer_fallback_spec true 500 "" "RESPONSE" (Or.inl (by decide))).2.1⟩

/-- C10: on the catch-all (unknown/General) intent, a message containing
at least one known token alias is answered by the price path — the price
fetcher is invoked once per extracted token, hence at least once — while
the static fallback prompt (with zero fetches) is returned exactly when
no alias occurs. -/
theorem general_intent_token_dispatch (env : GenEnv) (message : String)
    (hintent : extract_intent message = .unknown) :
    ((extract_crypto_tokens message).isEmpty = false →
      process_query ⟨false, false⟩ env message
        = ((generate_price_response env.priceOf (extract_crypto_tokens message)).1,
           (extract_crypto_tokens message).length, 0)
      ∧ 1 ≤ (extract_crypto_tokens message).length)
    ∧ ((extract_crypto_tokens message) = [] →
      process_query ⟨false, false⟩ env message = (unknownFallback, 0, 0)) := by
  constructor
  · intro hne
    have hne2 : extract_crypto_tokens message ≠ [] := by
      intro h
      rw [h] at hne
      simp at hne
    have hlen : 1 ≤ (extract_crypto_tokens message).length := by
      cases h : extract_crypto_tokens message with
      | nil => exact absurd h hne2
      | cons a l => simp [h]
    refine ⟨?_, hlen⟩
    have h2 : (generate_price_response env.priceOf (extract_crypto_tokens message)).2
        = (extract_crypto_tokens message).length := by
      unfold generate_price_response
      rw [if_neg hne2]
    unfold process_query
    rw [hintent]
    simp [hne, h2]
  · intro hnil
    unfold process_query
    rw [hintent]
    simp [hnil]

/-- Concrete instantiation of the catch-all dispatch: `"bitcoin"` (one
alias, no intent keyword) goes to the price path with one fetch;
`"hello there"` (no alias) gets the static fallback with zero fetches. -/
theorem general_intent_token_dispatch_witness :
    extract_intent "bitcoin" = .unknown
    ∧ (extract_crypto_tokens "bitcoin").isEmpty = false
    ∧ 1 ≤ (extract_crypto_tokens "bitcoin").length
    ∧ extract_intent "hello there" = .unknown
    ∧ extract_crypto_tokens "hello there" = []
    ∧ process_query ⟨false, false⟩
        ⟨fun _ => none, "", "", fun _ => "", "", "", Except.error ()⟩ "hello there"
        = (unknownFallback, 0, 0) :=
  ⟨by decide, by decide,
   ((general_intent_token_dispatch
      ⟨fun _ => none, "", "", fun _ => "", "", "", Except.error ()⟩
      "bitcoin" (by decide)).1 (by decide)).2,
   by decide, by decide,
   (general_intent_token_dispatch
      ⟨fun _ => none, "", "", fun _ => "", "", "", Except.error ()⟩
      "hello there" (by decide)).2 (by decide)⟩

/-- One RSS entry as read by the agent's `fetch_crypto_news`
(title/link/published, with feedparser defaults already applied). -/
structure RawEntry where
  title : String
  link : String
  published : String
  deriving DecidableEq

/-- One article dict built by `fetch_crypto_news` (lines 349-354). -/
structure Article where
  title : String
  link : String
  published : String
  source : String
  deriving DecidableEq

/-- The per-feed contribution of the agent's news loop (lines 345-356):
a failed fetch/parse is caught and contributes nothing; a successful
feed contributes its first 3 entries tagged with the feed title. -/
def feedContrib : Except Unit (String × List RawEntry) → List Article
  | .error _ => []
  | .ok (src, entries) =>
    (entries.take 3).map (fun e => ⟨e.title, e.link, e.published, src⟩)

/-- `fetch_crypto_news` (`agent_DEPLOYED_ENHANCED.py` lines 333-362) on
already-fetched feed outcomes: append 3 entries per feed (skipping
failed feeds) and truncate to `limit`. Note: no URL deduplication is
performed here. -/
def fetch_crypto_news (feeds : List (Except Unit (String × List RawEntry)))
    (limit : Nat) : List Article :=
  (feeds.foldl (fun acc f => acc ++ feedContrib f) []).take limit

/-- One parsed entry of `NewsService._fetch_feed` (fields are the strings
after the external HTML-cleaning/date helpers ran). -/
structure SEntry where
  title : String
  description : String
  url : String
  published_at : String
  raw_date : String
  deriving DecidableEq

/-- One article dict of `NewsService._fetch_feed` (lines 114-121). -/
structure SArticle where
  title : String
  description : String
  url : String
  source : String
  published_at : String
  raw_date : String
  deriving DecidableEq

namespace NewsService

/-- `_fetch_feed` (`services/news_service.py` lines 71-132) on an
already-parsed outcome: any error is caught and yields `[]`; otherwise
the first 20 entries become articles tagged with the feed name. -/
def fetchFeed (src : String) : Except Unit (List SEntry) → List SArticle
  | .error _ => []
  | .ok entries =>
    (entries.take 20).map (fun e => ⟨e.title, e.description, e.url, src, e.published_at, e.raw_date⟩)

/-- The URL-dedup loop of `fetch_all_news` (lines 167-174): keep an
article only when its URL is nonempty and unseen, first occurrence
wins; articles with an empty URL are dropped. -/
def dedupByUrl (seen : List String) : List SArticle → List SArticle
  | [] => []
  | a :: rest =>
    if a.url ≠ "" ∧ ¬ (a.url ∈ seen) then a :: dedupByUrl (a.url :: seen) rest
    else dedupByUrl seen rest

/-- `NewsService.fetch_all_news` (`services/news_service.py` lines
135-200) on already-fetched feed outcomes: concatenate the per-feed
articles, deduplicate by URL, truncate to `limit`. -/
def fetch_all_news (feeds : List (String × Except Unit (List SEntry)))
    (limit : Nat) : List SArticle :=
  (dedupByUrl [] (feeds.foldl (fun acc f => acc ++ fetchFeed f.1 f.2) [])).take limit

end NewsService

/-- A left fold that appends a contribution per element equals the
flattened map of contributions. -/
theorem foldl_append_map {α β : Type} (g : β → List α) :
    ∀ (l : List β) (acc : List α),
    l.foldl (fun a b => a ++ g b) acc = acc ++ (l.map g).flatten := by
  intro l
  induction l with
  | nil => intro acc; simp
  | cons b rest ih => intro acc; simp [ih]

/-- Articles surviving `dedupByUrl` come from the input, have a nonempty
URL, and their URL was not previously seen. -/
theorem dedupByUrl_mem : ∀ (l : List SArticle) (seen : List String) (a : SArticle),
    a ∈ NewsService.dedupByUrl seen l → a ∈ l ∧ a.url ≠ "" ∧ ¬ (a.url ∈ seen) := by
  intro l
  induction l with
  | nil => intro seen a h; simp [NewsService.dedupByUrl] at h
  | cons b rest ih =>
    intro seen a h
    by_cases hb : b.url ≠ "" ∧ ¬ (b.url ∈ seen)
    · rw [NewsService.dedupByUrl, if_pos hb] at h
      rcases List.mem_cons.mp h with rfl | h2
      · exact ⟨List.mem_cons_self _ _, hb.1, hb.2⟩
      · obtain ⟨hmem, hne, hseen⟩ := ih (b.url :: seen) a h2
        exact ⟨List.mem_cons_of_mem _ hmem, hne,
          fun hx => hseen (List.mem_cons_of_mem _ hx)⟩
    · rw [NewsService.dedupByUrl, if_neg hb] at h
      obtain ⟨hmem, hne, hseen⟩ := ih seen a h
      exact ⟨List.mem_cons_of_mem _ hmem, hne, hseen⟩

/-- The URLs surviving `dedupByUrl` are pairwise distinct. -/
theorem dedupByUrl_nodup : ∀ (l : List SArticle) (seen : List String),
    ((NewsService.dedupByUrl seen l).map (fun a => a.url)).Nodup := by
  intro l
  induction l with
  | nil => intro seen; simp [NewsService.dedupByUrl]
  | cons b rest ih =>
    intro seen
    by_cases hb : b.url ≠ "" ∧ ¬ (b.url ∈ seen)
    · rw [NewsService.dedupByUrl, if_pos hb]
      rw [List.map_cons, List.nodup_cons]
      refine ⟨?_, ih (b.url :: seen)⟩
      intro hx
      obtain ⟨c, hc, hcu⟩ := List.mem_map.mp hx
      obtain ⟨_, _, hseen⟩ := dedupByUrl_mem rest (b.url :: seen) c hc
      exact hseen (by rw [hcu]; exact List.mem_cons_self _ _)
    · rw [NewsService.dedupByUrl, if_neg hb]
      exact ih seen

/-- First occurrence wins: every article kept by `dedupByUrl` is exactly
the first input article carrying its URL. -/
theorem dedupByUrl_find : ∀ (l : List SArticle) (seen : List String) (a : SArticle),
    a ∈ NewsService.dedupByUrl seen l →
    l.find? (fun b => b.url == a.url) = some a := by
  intro l
  induction l with
  | nil => intro seen a h; simp [NewsService.dedupByUrl] at h
  | cons b rest ih =>
    intro seen a h
    by_cases hb : b.url ≠ "" ∧ ¬ (b.url ∈ seen)
    · rw [NewsService.dedupByUrl, if_pos hb] at h
      rcases List.mem_cons.mp h with rfl | h2
      · rw [List.find?_cons_of_pos _ (by simp)]
      · obtain ⟨_, _, hseen⟩ := dedupByUrl_mem rest (b.url :: seen) a h2
        have hne : b.url ≠ a.url := by
          intro hx
          exact hseen (by rw [← hx]; exact List.mem_cons_self _ _)
        rw [List.find?_cons_of_neg _ (by simp [hne]), ih (b.url :: seen) a h2]
    · rw [NewsService.dedupByUrl, if_neg hb] at h
      obtain ⟨_, hne2, hseen2⟩ := dedupByUrl_mem rest seen a h
      push_neg at hb
      have hne : b.url ≠ a.url := by
        by_cases hbe : b.url = ""
        · rw [hbe]; exact fun hx => hne2 hx.symm
        · intro hx
          exact hseen2 (hx ▸ hb hbe)
      rw [List.find?_cons_of_neg _ (by simp [hne]), ih seen a h]

/-- `dedupByUrl` only removes elements. -/
theorem dedupByUrl_sublist : ∀ (l : List SArticle) (seen : List String),
    List.Sublist (NewsService.dedupByUrl seen l) l := by
  intro l
  induction l with
  | nil => intro seen; simp [NewsService.dedupByUrl]
  | cons b rest ih =>
    intro seen
    by_cases hb : b.url ≠ "" ∧ ¬ (b.url ∈ seen)
    · rw [NewsService.dedupByUrl, if_pos hb]
      exact List.Sublist.cons₂ b (ih (b.url :: seen))
    · rw [NewsService.dedupByUrl, if_neg hb]
      exact List.Sublist.cons b (ih seen)

/-- Whether a feed outcome succeeded with the given feed title. -/
def okWithSource (s : String) : Except Unit (String × List RawEntry) → Bool
  | .ok (src, _) => src == s
  | .error _ => false

/-- Each successfully fetched feed contributes at most 3 articles
carrying its title, in the agent's news path. -/
theorem agent_per_source_bound (s : String) :
    ∀ (feeds : List (Except Unit (String × List RawEntry))),
    ((feeds.map feedContrib).flatten).countP (fun a => a.source == s)
      ≤ 3 * feeds.countP (okWithSource s) := by
  intro feeds
  induction feeds with
  | nil => simp
  | cons f rest ih =>
    rw [List.map_cons, List.flatten_cons, List.countP_append, List.countP_cons]
    have hf : (feedContrib f).countP (fun a => a.source == s)
        ≤ 3 * (if okWithSource s f then 1 else 0) := by
      cases f with
      | error e => simp [feedContrib, okWithSource]
      | ok p =>
        obtain ⟨src, es⟩ := p
        rw [feedContrib, List.countP_map]
        have hcast : ((fun (a : Article) => a.source == s) ∘
            (fun e : RawEntry => (⟨e.title, e.link, e.published, src⟩ : Article)))
            = fun _ => src == s := rfl
        rw [hcast]
        cases hss : (src == s) with
        | true =>
          rw [show okWithSource s (Except.ok (src, es)) = true from by
            simp [okWithSource, hss]]
          rw [if_pos rfl]
          have h3 : ((es.take 3).countP (fun _ => true)) ≤ 3 := by
            simp only [List.countP_true]
            exact List.length_take_le 3 es
          omega
        | false =>
          rw [show okWithSource s (Except.ok (src, es)) = false from by
            simp [okWithSource, hss]]
          simp
    omega

/-- Each feed contributes at most 20 articles carrying its name, in the
service's news path. -/
theorem service_per_source_bound (s : String) :
    ∀ (sfeeds : List (String × Except Unit (List SEntry))),
    ((sfeeds.map (fun f => NewsService.fetchFeed f.1 f.2)).flatten).countP
        (fun a => a.source == s)
      ≤ 20 * sfeeds.countP (fun f => f.1 == s) := by
  intro sfeeds
  induction sfeeds with
  | nil => simp
  | cons f rest ih =>
    rw [List.map_cons, List.flatten_cons, List.countP_append, List.countP_cons]
    have hf : (NewsService.fetchFeed f.1 f.2).countP (fun a => a.source == s)
        ≤ 20 * (if f.1 == s then 1 else 0) := by
      cases hout : f.2 with
      | error e => simp [NewsService.fetchFeed]
      | ok es =>
        rw [NewsService.fetchFeed, List.countP_map]
        have hcast : ((fun (a : SArticle) => a.source == s) ∘
            (fun e : SEntry =>
              (⟨e.title, e.description, e.url, f.1, e.published_at, e.raw_date⟩ : SArticle)))
            = fun _ => f.1 == s := rfl
        rw [hcast]
        cases hss : (f.1 == s) with
        | true =>
          rw [if_pos rfl]
          have h20 : ((es.take 20).countP (fun _ => true)) ≤ 20 := by
            simp only [List.countP_true]
            exact List.length_take_le 20 es
          omega
        | false => simp
    omega

/-- Counterexample to C6 as stated: in the deployed agent's
`fetch_crypto_news`, two feeds carrying the same article URL both
survive — the returned list contains the URL twice, so the claimed
URL-deduplication does not happen in this code path. -/
theorem news_dedup_counterexample :
    (fetch_crypto_news [.ok ("A", [⟨"t1", "u", ""⟩]), .ok ("B", [⟨"t2", "u", ""⟩])] 5).map
        (fun a => a.link) = ["u", "u"]
    ∧ ¬ ((fetch_crypto_news [.ok ("A", [⟨"t1", "u", ""⟩]), .ok ("B", [⟨"t2", "u", ""⟩])] 5).map
        (fun a => a.link)).Nodup :=
  ⟨by decide, by decide⟩

/-- C6 (amended): the agent's `fetch_crypto_news` takes at most 3
entries per successful feed, truncates to `limit`, and tolerates a
single feed's failure (the other feeds' articles are still returned),
but performs no URL deduplication; `NewsService.fetch_all_news`
deduplicates by URL keeping the first occurrence (result URLs pairwise
distinct, each kept article is the first input article with its URL),
truncates to `limit` and tolerates single-feed failure, but takes up to
20 entries per feed rather than 3. -/
theorem news_fetch_amended
    (feeds xs ys : List (Except Unit (String × List RawEntry)))
    (sfeeds sxs sys : List (String × Except Unit (List SEntry)))
    (limit : Nat) (s src0 : String) :
    (fetch_crypto_news feeds limit).length ≤ limit
    ∧ fetch_crypto_news (xs ++ .error () :: ys) limit = fetch_crypto_news (xs ++ ys) limit
    ∧ (fetch_crypto_news feeds limit).countP (fun a => a.source == s)
        ≤ 3 * feeds.countP (okWithSource s)
    ∧ (NewsService.fetch_all_news sfeeds limit).length ≤ limit
    ∧ ((NewsService.fetch_all_news sfeeds limit).map (fun a => a.url)).Nodup
    ∧ (∀ a ∈ NewsService.fetch_all_news sfeeds limit,
        (sfeeds.foldl (fun acc f => acc ++ NewsService.fetchFeed f.1 f.2) []).find?
          (fun b => b.url == a.url) = some a)
    ∧ NewsService.fetch_all_news (sxs ++ (src0, .error ()) :: sys) limit
        = NewsService.fetch_all_news (sxs ++ sys) limit
    ∧ (NewsService.fetch_all_news sfeeds limit).countP (fun a => a.source == s)
        ≤ 20 * sfeeds.countP (fun f => f.1 == s) := by
  have hrep : ∀ fs, fetch_crypto_news fs limit
      = ((fs.map feedContrib).flatten).take limit := by
    intro fs
    unfold fetch_crypto_news
    rw [foldl_append_map]
    simp
  have hrep2 : ∀ fs, NewsService.fetch_all_news fs limit
      = (NewsService.dedupByUrl []
          ((fs.map (fun f => NewsService.fetchFeed f.1 f.2)).flatten)).take limit := by
    intro fs
    unfold NewsService.fetch_all_news
    rw [foldl_append_map]
    simp
  refine ⟨?_, ?_, ?_, ?_, ?_, ?_, ?_, ?_⟩
  · rw [hrep]
    exact List.length_take_le _ _
  · rw [hrep, hrep]
    simp [feedContrib]
  · rw [hrep]
    exact le_trans ((List.take_sublist _ _).countP_le _) (agent_per_source_bound s feeds)
  · rw [hrep2]
    exact List.length_take_le _ _
  · rw [hrep2]
    rw [List.map_take]
    exact List.Nodup.sublist (List.take_sublist _ _) (dedupByUrl_nodup _ _)
  · intro a ha
    rw [hrep2] at ha
    have hmem : a ∈ NewsService.dedupByUrl []
        ((sfeeds.map (fun f => NewsService.fetchFeed f.1 f.2)).flatten) :=
      List.mem_of_mem_take ha
    rw [foldl_append_map]
    simp only [List.nil_append]
    exact dedupByUrl_find _ [] a hmem
  · rw [hrep2, hrep2]
    simp [NewsService.fetchFeed]
  · rw [hrep2]
    exact le_trans (le_trans ((List.take_sublist _ _).countP_le _)
      ((dedupByUrl_sublist _ _).countP_le _)) (service_per_source_bound s sfeeds)

/-- Concrete instantiation of the amended news theorem: one feed, one
article; the kept article is the first (only) occurrence of its URL. -/
theorem news_fetch_amended_witness :
    ((⟨"t", "d", "u1", "A", "p", "r"⟩ : SArticle)
        ∈ NewsService.fetch_all_news [("A", .ok [⟨"t", "d", "u1", "p", "r"⟩])] 5)
    ∧ ([("A", (.ok [⟨"t", "d", "u1", "p", "r"⟩] : Except Unit (List SEntry)))].foldl
        (fun acc f => acc ++ NewsService.fetchFeed f.1 f.2) []).find?
          (fun b => b.url == (⟨"t", "d", "u1", "A", "p", "r"⟩ : SArticle).url)
        = some ⟨"t", "d", "u1", "A", "p", "r"⟩ :=
  ⟨by decide,
   (news_fetch_amended [] [] [] [("A", .ok [⟨"t", "d", "u1", "p", "r"⟩])] [] [] 5 "A"
      "A").2.2.2.2.2.1
     ⟨"t", "d", "u1", "A", "p", "r"⟩ (by decide)⟩

/-- The `SentimentLabel` enumeration of `agents/models.py`. -/
inductive SentimentLabel
  | positive | negative | neutral
  deriving DecidableEq, Repr

/-- `SentimentAnalyzer._classify_sentiment`
(`knowledge/sentiment_analyzer.py` lines 94-113): strictly above the
positive threshold is positive, strictly below the negative threshold is
negative, otherwise neutral (defaults 0.2 / -0.2 at the call sites). -/
def classify_sentiment (score positive_threshold negative_threshold : ℚ) : SentimentLabel :=
  if score > positive_threshold then .positive
  else if score < negative_threshold then .negative
  else .neutral

/-- A news article after the analysis stage: optional score and label. -/
structure AnalyzedArticle where
  sentiment_score : Option ℚ
  sentiment_label : Option SentimentLabel

/-- `SentimentAnalyzer.get_aggregate_sentiment`
(`knowledge/sentiment_analyzer.py` lines 188-226): average the non-null
per-article scores (0 when none), classify the average with the 0.2
thresholds, and count the label distribution. -/
def get_aggregate_sentiment (articles : List AnalyzedArticle) :
    ℚ × SentimentLabel × (Nat × Nat × Nat) :=
  if articles.isEmpty then (0, .neutral, (0, 0, 0))
  else
    let scores := articles.filterMap (fun a => a.sentiment_score)
    let avg := if scores = [] then 0 else scores.sum / scores.length
    (avg, classify_sentiment avg (2/10) (-2/10),
     (articles.countP (fun a => a.sentiment_label == some .positive),
      articles.countP (fun a => a.sentiment_label == some .neutral),
      articles.countP (fun a => a.sentiment_label == some .negative)))

/-- The Bullish/Bearish/Neutral labels used by the deployed agent's
`analyze_sentiment`. -/
inductive AgentLabel
  | bullish | bearish | neutralA
  deriving DecidableEq, Repr

/-- Python's `" ".join`. -/
def joinTitles : List String → String
  | [] => ""
  | [t] => t
  | t :: rest => t ++ " " ++ joinTitles rest

/-- `analyze_sentiment` (`agent_DEPLOYED_ENHANCED.py` lines 365-391):
the TextBlob and VADER engines are external — they enter as score
oracles (absent when the library is not installed). TextBlob polarity is
labelled Bullish above 0.1 and Bearish below -0.1; VADER compound at
±0.05. -/
def analyze_sentiment (textblob vader : Option (String → ℚ)) (text : String) :
    Option (ℚ × AgentLabel) × Option (ℚ × AgentLabel) :=
  (textblob.map (fun tb =>
     let p := tb text
     (p, if p > 1/10 then .bullish else if p < -1/10 then .bearish else .neutralA)),
   vader.map (fun vd =>
     let c := vd text
     (c, if c > 1/20 then .bullish else if c < -1/20 then .bearish else .neutralA)))

/-- The aggregate sentiment that `generate_news_response` reports (lines
719-721 and 730-735): one `analyze_sentiment` run over the
space-joined article titles — not an average of per-article scores. -/
def news_response_sentiment (textblob vader : Option (String → ℚ))
    (titles : List String) : Option (ℚ × AgentLabel) × Option (ℚ × AgentLabel) :=
  analyze_sentiment textblob vader (joinTitles titles)

/-- The agent's Bullish/Bearish/Neutral labels read as sentiment
classes. -/
def agentLabelAsSentiment : AgentLabel → SentimentLabel
  | .bullish => .positive
  | .bearish => .negative
  | .neutralA => .neutral

/-- Counterexample to C7 as stated: a single analyzed article with score
0.15. The mean of the per-article scores is 0.15, which the claimed
0.2-threshold reclassification calls neutral; but the news response
(with a TextBlob engine scoring that title 0.15) reports Bullish, since
`generate_news_response` classifies the joined-titles score with the
0.1 threshold instead. -/
theorem news_aggregate_counterexample :
    (get_aggregate_sentiment [⟨some ((3:ℚ)/20), none⟩]).2.1 = SentimentLabel.neutral
    ∧ (news_response_sentiment (some fun _ => (3:ℚ)/20) none ["t"]).1
        = some ((3:ℚ)/20, AgentLabel.bullish)
    ∧ agentLabelAsSentiment AgentLabel.bullish ≠ SentimentLabel.neutral := by
  refine ⟨?_, ?_, by decide⟩
  · simp only [get_aggregate_sentiment, List.isEmpty_cons, Bool.false_eq_true, if_false,
      List.filterMap, Option.some.injEq, classify_sentiment]
    norm_num
  · simp only [news_response_sentiment, analyze_sentiment, joinTitles, Option.map_some,
      Option.some.injEq, Prod.mk.injEq]
    norm_num

/-- When every article carries a score, `filterMap` of the scores is the
plain projection. -/
theorem filterMap_scores_of_all_some :
    ∀ (l : List AnalyzedArticle), (∀ a ∈ l, a.sentiment_score.isSome) →
    l.filterMap (fun a => a.sentiment_score)
      = l.map (fun a => a.sentiment_score.getD 0) := by
  intro l
  induction l with
  | nil => intro _; simp
  | cons a rest ih =>
    intro h
    have ha : a.sentiment_score.isSome := h a (List.mem_cons_self _ _)
    obtain ⟨v, hv⟩ := Option.isSome_iff_exists.mp ha
    rw [List.filterMap_cons, hv, List.map_cons, hv]
    simp only [Option.getD_some]
    rw [ih (fun b hb => h b (List.mem_cons_of_mem _ hb))]

/-- C7 (amended): `get_aggregate_sentiment` does return the arithmetic
mean of the per-article scores reclassified with the
> 0.2 / < -0.2 thresholds (shown for nonempty lists of analyzed
articles); but the aggregate sentiment the deployed news response
reports is the engine's score of the concatenated titles labelled with
the ±0.1 TextBlob (±0.05 VADER) thresholds, not that mean. -/
theorem news_aggregate_amended (articles : List AnalyzedArticle)
    (hne : articles ≠ []) (hall : ∀ a ∈ articles, a.sentiment_score.isSome) :
    (get_aggregate_sentiment articles).1
      = (articles.map (fun a => a.sentiment_score.getD 0)).sum / articles.length
    ∧ (get_aggregate_sentiment articles).2.1
      = classify_sentiment
          ((articles.map (fun a => a.sentiment_score.getD 0)).sum / articles.length)
          (2/10) (-2/10)
    ∧ (∀ (tb : String → ℚ) (titles : List String),
        (news_response_sentiment (some tb) none titles).1
          = some (tb (joinTitles titles),
              if tb (joinTitles titles) > 1/10 then AgentLabel.bullish
              else if tb (joinTitles titles) < -1/10 then AgentLabel.bearish
              else AgentLabel.neutralA)) := by
  have hie : articles.isEmpty = false := by
    cases articles with
    | nil => exact absurd rfl hne
    | cons a l => rfl
  have hfm := filterMap_scores_of_all_some articles hall
  have hmne : articles.map (fun a => a.sentiment_score.getD 0) ≠ [] := by
    cases articles with
    | nil => exact absurd rfl hne
    | cons a l => simp
  refine ⟨?_, ?_, fun tb titles => rfl⟩
  · simp only [get_aggregate_sentiment, hie, Bool.false_eq_true, if_false, hfm,
      if_neg hmne, List.length_map]
  · simp only [get_aggregate_sentiment, hie, Bool.false_eq_true, if_false, hfm,
      if_neg hmne, List.length_map]

/-- Concrete instantiation of the amended aggregate theorem: one article
with score 1/2; the aggregate is the mean of the score list. -/
theorem news_aggregate_amended_witness :
    (([⟨some ((1:ℚ)/2), some SentimentLabel.positive⟩] : List AnalyzedArticle) ≠ [])
    ∧ (∀ a ∈ ([⟨some ((1:ℚ)/2), some SentimentLabel.positive⟩] : List AnalyzedArticle),
        a.sentiment_score.isSome)
    ∧ (get_aggregate_sentiment [⟨some ((1:ℚ)/2), some SentimentLabel.positive⟩]).1
        = (([⟨some ((1:ℚ)/2), some SentimentLabel.positive⟩] : List AnalyzedArticle).map
            (fun a => a.sentiment_score.getD 0)).sum
          / ([⟨some ((1:ℚ)/2), some SentimentLabel.positive⟩] : List AnalyzedArticle).length :=
  ⟨by simp, by simp,
   (news_aggregate_amended [⟨some ((1:ℚ)/2), some SentimentLabel.positive⟩]
      (by simp) (by simp)).1⟩

end SentientSats





